import Mathlib

/-!
Verification of the CampusConnect ingestion pipelines.

This file gives a shallow embedding of the two pipelines of the repository
(`src/utils/api_client.py` and `src/utils/event_scraper.py`) and proves the
specification claims about them.

Conventions of the embedding:
* Python strings are Lean `String` / `List Char`; `len`, slicing and
  indexing therefore count code points exactly as Python does.
* Python's `re` character class `\s` is modelled by `pySpace`, covering the
  ASCII whitespace characters space, tab, newline, carriage return,
  vertical tab and form feed (the inputs of interest are ASCII).
* Fallible Python code (`try`/`except` returning `None`) is modelled with
  `Option`; network and database effects are modelled by explicit oracle
  parameters, so that the pure control flow of the source is preserved.
* JSON values stored into database cells are modelled by `Cell`
  (string / number / NULL), which keeps Python's distinction between the
  empty string `''` and `None` observable.
-/

namespace CampusConnect

/-- ASCII model of Python's regex class `\s` (and of `str.strip()`'s
whitespace set restricted to ASCII). -/
def pySpace (c : Char) : Bool :=
  c = ' ' || c = '\t' || c = '\n' || c = '\r' || c = '\x0b' || c = '\x0c'

/-- Auxiliary for `collapseRuns`: the flag records whether the previous
character was whitespace (so that a run contributes one single space). -/
def collapseAux : Bool → List Char → List Char
  | _, [] => []
  | prevWs, c :: cs =>
    if pySpace c then
      if prevWs then collapseAux true cs else ' ' :: collapseAux true cs
    else c :: collapseAux false cs

/-- Model of `re.sub(r'\s+', ' ', s)`: every maximal run of whitespace is
replaced by a single space. -/
def collapseRuns (l : List Char) : List Char :=
  collapseAux false l

/-- Remove trailing whitespace. -/
def stripBack (l : List Char) : List Char :=
  (l.reverse.dropWhile pySpace).reverse

/-- Model of Python `str.strip()`: remove leading and trailing whitespace. -/
def stripL (l : List Char) : List Char :=
  stripBack (l.dropWhile pySpace)

/-- String wrapper for `collapseRuns` followed by `strip()`, i.e. the idiom
`re.sub(r'\s+', ' ', s).strip()` used throughout the source. -/
def wsCleanS (s : String) : String :=
  ⟨stripL (collapseRuns s.data)⟩

/-- String wrapper for `str.strip()`. -/
def stripS (s : String) : String :=
  ⟨stripL s.data⟩

/-- Model of Python `str.upper()` on ASCII data. -/
def upperS (s : String) : String :=
  ⟨s.data.map Char.toUpper⟩

/-- Plain substring test: does `pat` occur contiguously in `s`?  Models
`re.search` of a literal pattern (e.g. `/event/`). -/
def containsSub (pat : List Char) : List Char → Bool
  | [] => pat.isEmpty
  | c :: rest => pat.isPrefixOf (c :: rest) || containsSub pat rest

/-- Substring test on `String`s. -/
def containsSubS (pat s : String) : Bool :=
  containsSub pat.data s.data

/-- Case-insensitive prefix test: `pat` is given in uppercase and is compared
against the uppercased input.  Models prefix matching of a literal under
`re.IGNORECASE`. -/
def ciStarts : List Char → List Char → Bool
  | [], _ => true
  | _ :: _, [] => false
  | p :: ps, c :: cs => (c.toUpper = p) && ciStarts ps cs

/-- Case-insensitive substring test (`pat` given in uppercase). -/
def ciContains (pat : List Char) : List Char → Bool
  | [] => ciStarts pat []
  | c :: rest => ciStarts pat (c :: rest) || ciContains pat rest

/-- Case-insensitive substring test on `String`s. -/
def ciContainsS (pat s : String) : Bool :=
  ciContains pat.data s.data

/-! ## Weather client (`src/utils/api_client.py`) -/

/-- A database cell value: Python `str`, a JSON number, or `None`/NULL.
`Cell.null` is the spec's explicit no-value marker, distinct from the empty
string `Cell.str ""`. -/
inductive Cell where
  | str (v : String)
  | num (v : Int)
  | null
deriving DecidableEq, Repr

/-- The provider's `weather_descriptions` JSON value: either a list of
strings (the documented shape) or some other value, carried as the result of
Python's `str()` on it. -/
inductive Descs where
  | strs (l : List String)
  | other (rendered : String)
deriving DecidableEq, Repr

/-- The `location` object of a raw WeatherStack payload; absent keys are
`none`.  Numeric JSON values pass through the pipeline unmodified, so their
representation (`Int` here) is immaterial. -/
structure RawLocation where
  name : Option String := none
  country : Option String := none
  region : Option String := none
  lat : Option Int := none
  lon : Option Int := none
  timezone_id : Option String := none
  localtime : Option String := none
deriving DecidableEq, Repr

/-- The `current` object of a raw WeatherStack payload. -/
structure RawCurrent where
  temperature : Option Int := none
  weather_code : Option Int := none
  weather_descriptions : Option Descs := none
  weather_icons : Option (List String) := none
  wind_speed : Option Int := none
  wind_degree : Option Int := none
  wind_dir : Option String := none
  pressure : Option Int := none
  precip : Option Int := none
  humidity : Option Int := none
  cloudcover : Option Int := none
  feelslike : Option Int := none
  uv_index : Option Int := none
  visibility : Option Int := none
  observation_time : Option String := none
deriving DecidableEq, Repr

/-- A parsed response body.  `error` records whether the top-level `'error'`
key is present; `extra` records whether any further top-level key (beyond
`location`/`current`/`error`) is present, so that Python's dict truthiness
(`if not weather_data`) is expressible. -/
structure RawPayload where
  location : Option RawLocation := none
  current : Option RawCurrent := none
  error : Bool := false
  extra : Bool := false
deriving DecidableEq, Repr

/-- Python truthiness of the parsed dict: a dict is truthy iff nonempty. -/
def pyTruthy (w : RawPayload) : Bool :=
  w.location.isSome || w.current.isSome || w.error || w.extra

/-- Result of the HTTP GET + JSON parse inside `fetch_weather`: either a
`requests` exception (timeout, DNS failure, non-2xx via `raise_for_status`)
or a parsed body. -/
inductive FetchOutcome where
  | transportError
  | ok (payload : RawPayload)

/-- Minimal model of `json.dumps` string escaping for the characters that
need it; other characters are emitted verbatim (inputs are ASCII icon URLs). -/
def jsonEscapeChar (c : Char) : List Char :=
  if c = '"' then ['\\', '"']
  else if c = '\\' then ['\\', '\\']
  else if c = '\n' then ['\\', 'n']
  else if c = '\t' then ['\\', 't']
  else if c = '\r' then ['\\', 'r']
  else [c]

/-- Model of `json.dumps` on a list of strings: `["a", "b"]` with `", "`
separators, as Python produces by default. -/
def jsonDumpStrs (l : List String) : String :=
  "[" ++ String.intercalate ", "
      (l.map (fun s => "\"" ++ (⟨s.data.flatMap jsonEscapeChar⟩ : String) ++ "\"")) ++ "]"

/-- The cleaned record produced by `APIClient.clean_data`, one `Cell` per
database column of the `api_data` table. -/
structure CleanedData where
  location_name : Cell
  country : Cell
  region : Cell
  lat : Cell
  lon : Cell
  timezone_id : Cell
  localtime : Cell
  temperature : Cell
  weather_code : Cell
  weather_icons : Cell
  weather_descriptions : Cell
  wind_speed : Cell
  wind_degree : Cell
  wind_dir : Cell
  pressure : Cell
  precip : Cell
  humidity : Cell
  cloudcover : Cell
  feelslike : Cell
  uv_index : Cell
  visibility : Cell
  observation_time : Cell
deriving DecidableEq, Repr

/-- Model of `current.get(k)`: absent numeric key becomes `None`/NULL. -/
def numOrNull : Option Int → Cell
  | some n => .num n
  | none => .null

/-- Model of `location.get(k, '')` on a numeric key: absent key becomes the
empty string (the source's chosen default). -/
def numOrEmpty : Option Int → Cell
  | some n => .num n
  | none => .str ""

/-- Embedding of `APIClient.clean_data`.  The `try`/`except` wrapper of the
source can only fire on structurally ill-typed payloads, which the typed
model excludes, so the success branch is always taken; the `Option` result
mirrors the source's `dict or None` signature. -/
def clean_data (w : RawPayload) : Option CleanedData :=
  let loc := w.location.getD {}
  let cur := w.current.getD {}
  some {
    location_name := .str (wsCleanS (loc.name.getD ""))
    country := .str (wsCleanS (loc.country.getD ""))
    region := .str (wsCleanS (loc.region.getD ""))
    lat := numOrEmpty loc.lat
    lon := numOrEmpty loc.lon
    timezone_id := .str (
      let tz := loc.timezone_id.getD ""
      if tz = "" then tz else wsCleanS tz)
    localtime := .str (loc.localtime.getD "")
    temperature := numOrNull cur.temperature
    weather_code := numOrNull cur.weather_code
    weather_icons := (
      let icons := cur.weather_icons.getD []
      if icons = [] then Cell.null else Cell.str (jsonDumpStrs icons))
    weather_descriptions := .str (
      match cur.weather_descriptions.getD (.strs []) with
      | .strs l => wsCleanS (String.intercalate ", " l)
      | .other s => s)
    wind_speed := numOrNull cur.wind_speed
    wind_degree := numOrNull cur.wind_degree
    wind_dir := .str (
      let wd := cur.wind_dir.getD ""
      if wd = "" then wd else stripS (upperS wd))
    pressure := numOrNull cur.pressure
    precip := numOrNull cur.precip
    humidity := numOrNull cur.humidity
    cloudcover := numOrNull cur.cloudcover
    feelslike := numOrNull cur.feelslike
    uv_index := numOrNull cur.uv_index
    visibility := numOrNull cur.visibility
    observation_time := .str (cur.observation_time.getD "") }

/-- Embedding of `APIClient.fetch_weather`: a transport failure returns the
`None` sentinel, and so does a parsed body carrying the provider's `'error'`
key. -/
def fetch_weather (o : FetchOutcome) : Option RawPayload :=
  match o with
  | .transportError => none
  | .ok p => if p.error then none else some p

/-- Embedding of `APIClient.get_and_store_weather`, parameterised over the
storage stage (`save_to_database`) so that non-invocation of storage is
expressible by quantifying over `save`. -/
def get_and_store_weather (o : FetchOutcome) (save : CleanedData → Bool) : Bool :=
  match fetch_weather o with
  | none => false
  | some w =>
    if pyTruthy w = false then false
    else
      match clean_data w with
      | none => false
      | some c => save c

/-! ## Event scraper (`src/utils/event_scraper.py`)

The regex heuristics of `_fetch_event_details` are embedded as executable
functions over `List Char`.  Each embedding follows the Python `re`
backtracking semantics of its pattern, specialised to the concrete pattern
(greedy runs are maximal; laziness picks the earliest terminator; scanning
is leftmost-first). -/

/-- ASCII class `[A-Z]`. -/
def isUpperAZ (c : Char) : Bool := 'A' ≤ c && c ≤ 'Z'

/-- ASCII class `[a-z]`. -/
def isLowerAZ (c : Char) : Bool := 'a' ≤ c && c ≤ 'z'

/-- ASCII class `\d`. -/
def isDigit09 (c : Char) : Bool := '0' ≤ c && c ≤ '9'

/-- ASCII letter of either case (what `[a-z]` matches under `re.IGNORECASE`). -/
def isAlphaAscii (c : Char) : Bool := isUpperAZ c || isLowerAZ c

/-- Does the description pattern `DESCRIPTION\s+...` (with `re.IGNORECASE`)
match at the head of `s`?  It does iff the literal marker is present
case-insensitively and is followed by at least one whitespace character
(the `(.*?)(?:...|$)` tail then always matches). -/
def descHere (s : List Char) : Bool :=
  ciStarts "DESCRIPTION".data s &&
    (match s.drop 11 with
     | c :: _ => pySpace c
     | [] => false)

/-- Scan for the leftmost position where `descHere` holds. -/
def findDescAux : List Char → Nat → Option Nat
  | [], _ => none
  | c :: rest, i => if descHere (c :: rest) then some i else findDescAux rest (i + 1)

/-- Leftmost match position of the description pattern, as found by
`re.search`. -/
def findDescPos (s : List Char) : Option Nat := findDescAux s 0

/-- Does one of the lazy capture's terminators (`QUESTIONS`, `Upcoming`,
`Interested`, matched case-insensitively) start at the head of `s`? -/
def termHere (s : List Char) : Bool :=
  ciStarts "QUESTIONS".data s || ciStarts "UPCOMING".data s ||
    ciStarts "INTERESTED".data s

/-- Length of the prefix of `s` before the first terminator (the whole
length when no terminator occurs, matching the `$` alternative). -/
def findTermLen : List Char → Nat
  | [] => 0
  | c :: rest => if termHere (c :: rest) then 0 else 1 + findTermLen rest

/-- Index of the first `'>'`, used by the tag-removal pattern `<[^>]+>`. -/
def findGt : List Char → Option Nat
  | [] => none
  | c :: rest => if c = '>' then some 0 else (findGt rest).map (· + 1)

/-- Fuelled scanner for `re.sub(r'<[^>]+>', '', s)`: at each `'<'` whose
first following `'>'` is at distance at least two, the bracketed span is
removed and scanning resumes after it; all other characters are kept.  The
fuel (initialised to the input length, which every step consumes at least
one of) only makes the recursion structural. -/
def stripTagsFuel : Nat → List Char → List Char
  | 0, l => l
  | _ + 1, [] => []
  | f + 1, c :: rest =>
    if c = '<' then
      match findGt rest with
      | some k =>
        if 1 ≤ k then stripTagsFuel f (rest.drop (k + 1))
        else c :: stripTagsFuel f rest
      | none => c :: stripTagsFuel f rest
    else c :: stripTagsFuel f rest

/-- Model of `re.sub(r'<[^>]+>', '', s)`. -/
def stripTags (l : List Char) : List Char := stripTagsFuel l.length l

/-- Embedding of the description extraction of `_fetch_event_details`:
`re.search(r'DESCRIPTION\s+(.*?)(?:QUESTIONS|Upcoming|Interested|$)', text,
re.DOTALL | re.IGNORECASE)`, then `.strip()`, whitespace collapse with
`.strip()`, removal of `<...>` spans, and truncation to 500 characters. -/
def extractDescription (text : List Char) : Option (List Char) :=
  match findDescPos text with
  | none => none
  | some i =>
    let afterWs := (text.drop (i + 11)).dropWhile pySpace
    let cap := afterWs.take (findTermLen afterWs)
    let d1 := stripL cap
    let d2 := stripL (collapseRuns d1)
    let d3 := stripTags d2
    some (if 500 < d3.length then d3.take 500 else d3)

/-- Does one of the claim's terminators start at the head of `s`, read as
the literal case-sensitive strings `QUESTIONS`, `Upcoming`, `Interested`? -/
def litTermHere (s : List Char) : Bool :=
  "QUESTIONS".data.isPrefixOf s || "Upcoming".data.isPrefixOf s ||
    "Interested".data.isPrefixOf s

/-- Length of the prefix of `s` before the first literal terminator (the
whole length when none occurs, the claim's end-of-text case). -/
def litTermLen : List Char → Nat
  | [] => 0
  | c :: rest => if litTermHere (c :: rest) then 0 else 1 + litTermLen rest

/-- Scan for the leftmost occurrence of the literal `DESCRIPTION` marker. -/
def findLitDescAux : List Char → Nat → Option Nat
  | [], _ => none
  | c :: rest, i =>
    if "DESCRIPTION".data.isPrefixOf (c :: rest) then some i
    else findLitDescAux rest (i + 1)

/-- Position of the first literal (case-sensitive) `DESCRIPTION` marker. -/
def findLitDescPos (s : List Char) : Option Nat := findLitDescAux s 0

/-- Modelled from the spec's words, read literally: the text between the
first literal `DESCRIPTION` marker and the first literal occurrence of
`QUESTIONS`, `Upcoming` or `Interested` (or end of text),
whitespace-collapsed (collapse runs, then trim), with angle-bracket markup
stripped, truncated to 500 characters.  Unlike the source, the marker and
terminators are case-sensitive and the marker needs no following
whitespace. -/
def descriptionSpec (text : List Char) : Option (List Char) :=
  match findLitDescPos text with
  | none => none
  | some i =>
    let after := text.drop (i + 11)
    let cap := after.take (litTermLen after)
    some ((stripTags (stripL (collapseRuns cap))).take 500)

/-- The amended claim's description formula: the marker is matched
case-insensitively and must be followed by at least one whitespace
character (the source's `DESCRIPTION\s+` under `re.IGNORECASE`), the
capture runs to the first case-insensitive terminator or end of text, and
is then whitespace-collapsed with trim, stripped of angle-bracket markup
and truncated to 500 characters. -/
def descriptionAmended (text : List Char) : Option (List Char) :=
  match findDescPos text with
  | none => none
  | some i =>
    let after := text.drop (i + 11)
    let cap := after.take (findTermLen after)
    some ((stripTags (stripL (collapseRuns cap))).take 500)

/-- First index `p` of `body` such that a digit stands at `p` and no newline
follows it: exactly where `\d+.*$` (no DOTALL, no MULTILINE) can start once
a trailing newline has been set aside. -/
def firstDigitNoNl : List Char → Option Nat
  | [] => none
  | c :: r =>
    if isDigit09 c && r.all (· ≠ '\n') then some 0
    else (firstDigitNoNl r).map (· + 1)

/-- Model of `re.sub(r'\d+.*$', '', s)`: `$` matches at the end or just
before a single trailing newline; the (at most one) match removes everything
from the first digit after which no newline occurs. -/
def removeDigitsTail (l : List Char) : List Char :=
  let hasNl := l.getLast? = some '\n'
  let body := if hasNl then l.dropLast else l
  match firstDigitNoNl body with
  | some p => body.take p ++ (if hasNl then ['\n'] else [])
  | none => l

/-- Largest index `j ≥ 1` of `r` holding a character other than `'\n'`
(used when `LOCATION\s+([^\n]+)` backtracks inside an all-whitespace tail:
the engine prefers the longest `\s+`, so the capture starts as late as
possible). -/
def lastNonNlPos (r : List Char) : Option Nat :=
  let tail := r.drop 1
  let k := (tail.reverse.takeWhile (· = '\n')).length
  if k < tail.length then some (1 + (tail.length - 1 - k)) else none

/-- Match of the tail `\s+([^\n]+)` of the location pattern against `r`,
returning the capture group: at least one whitespace character, then the
greedy run of non-newline characters.  When everything after the whitespace
run is exhausted, the engine backtracks to start the capture at the last
non-newline character inside the run. -/
def locTailMatch (r : List Char) : Option (List Char) :=
  let m := (r.takeWhile pySpace).length
  if m = 0 then none
  else if m < r.length then some ((r.drop m).takeWhile (· ≠ '\n'))
  else
    match lastNonNlPos r with
    | some j => some ((r.drop j).takeWhile (· ≠ '\n'))
    | none => none

/-- Leftmost match of `re.search(r'LOCATION\s+([^\n]+)', text, re.IGNORECASE)`,
returning the capture group. -/
def findLocCap : List Char → Option (List Char)
  | [] => none
  | c :: rest =>
    if ciStarts "LOCATION".data (c :: rest) then
      match locTailMatch ((c :: rest).drop 8) with
      | some cap => some cap
      | none => findLocCap rest
    else findLocCap rest

/-- Auxiliary for `splitWs`, accumulating the current word reversed. -/
def wordsAux (acc : List Char) : List Char → List (List Char)
  | [] => if acc = [] then [] else [acc.reverse]
  | c :: cs =>
    if pySpace c then
      (if acc = [] then wordsAux [] cs else acc.reverse :: wordsAux [] cs)
    else wordsAux (c :: acc) cs

/-- Model of Python `str.split()`: the maximal whitespace-free chunks. -/
def splitWs (l : List Char) : List (List Char) := wordsAux [] l

/-- Model of `' '.join(words)`. -/
def joinSpace (ws : List (List Char)) : List Char := List.intercalate [' '] ws

/-- Parse `[A-Z][a-z]+` at the head of the input (both runs maximal, as the
following context of the building pattern permits no useful backtracking),
returning the word and the remainder. -/
def parseWord : List Char → Option (List Char × List Char)
  | [] => none
  | c :: rest =>
    if isUpperAZ c then
      let ls := rest.takeWhile isLowerAZ
      if ls = [] then none else some (c :: ls, rest.dropWhile isLowerAZ)
    else none

/-- Final `\s+\d` of the building pattern: at least one whitespace character
followed by a digit; on success the accumulated capture group is returned. -/
def finishBM (acc r : List Char) : Option (List Char) :=
  let ws := r.takeWhile pySpace
  if ws = [] then none
  else
    match r.dropWhile pySpace with
    | d :: _ => if isDigit09 d then some acc else none
    | [] => none

/-- Greedy repetition `(?:\s+[A-Z][a-z]+){0,3}` with backtracking: first try
to extend by one more repetition (and everything after it), and only when
that whole continuation fails, close the group here with `\s+\d`. -/
def tryReps : Nat → List Char → List Char → Option (List Char)
  | 0, acc, r => finishBM acc r
  | f + 1, acc, r =>
    let ext :=
      let ws := r.takeWhile pySpace
      if ws = [] then none
      else
        match parseWord (r.dropWhile pySpace) with
        | some (w, r2) => tryReps f (acc ++ ws ++ w) r2
        | none => none
    match ext with
    | some g => some g
    | none => finishBM acc r

/-- Match of `([A-Z][a-z]+(?:\s+[A-Z][a-z]+){0,3})\s+\d` at the head of `s`,
returning the capture group. -/
def matchBuildingAt (s : List Char) : Option (List Char) :=
  match parseWord s with
  | some (w, r) => tryReps 3 w r
  | none => none

/-- Leftmost match of the building-name heuristic over the whole page text. -/
def findBuilding : List Char → Option (List Char)
  | [] => none
  | c :: rest =>
    match matchBuildingAt (c :: rest) with
    | some g => some g
    | none => findBuilding rest

/-- Embedding of the location extraction of `_fetch_event_details`,
including both fallbacks and the default venue name. -/
def extractLocation (text : List Char) : String :=
  match findLocCap text with
  | none => "Blue Mountain Christian University"
  | some cap =>
    let locLines := splitWs (stripL cap)
    match findBuilding text with
    | some g => ⟨stripL g⟩
    | none =>
      if locLines ≠ [] then
        let loc1 := joinSpace (locLines.take 3)
        let loc2 := stripL (removeDigitsTail loc1)
        if loc2 = [] then "Blue Mountain Christian University" else ⟨loc2⟩
      else "Blue Mountain Christian University"

/-- The twelve month prefixes of the date pattern, uppercased for
case-insensitive comparison.  At most one can match at a given position. -/
def monthsU : List (List Char) :=
  ["JAN", "FEB", "MAR", "APR", "MAY", "JUN",
   "JUL", "AUG", "SEP", "OCT", "NOV", "DEC"].map String.data

/-- Case-insensitive match of one month prefix, returning the three original
characters and the remainder. -/
def matchMonth (s : List Char) : Option (List Char × List Char) :=
  if monthsU.any (fun m => ciStarts m s) then some (s.take 3, s.drop 3) else none

/-- Match of the date pattern
`((?:Jan|...|Dec)[a-z]*\s+\d{1,2},?\s+\d{4})` (with `re.IGNORECASE`, under
which `[a-z]` also matches capitals) at the head of `s`, returning the
capture group.  More than two digits after the month make both `\d{1,2}`
options fail, since a digit then stands where `,?\s+` must match. -/
def dateAt (s : List Char) : Option (List Char) :=
  match matchMonth s with
  | none => none
  | some (mon, r1) =>
    let letters := r1.takeWhile isAlphaAscii
    let r2 := r1.dropWhile isAlphaAscii
    let ws1 := r2.takeWhile pySpace
    let r3 := r2.dropWhile pySpace
    if ws1 = [] then none
    else
      let digs := r3.takeWhile isDigit09
      let r4 := r3.dropWhile isDigit09
      if digs.length = 0 || 2 < digs.length then none
      else
        let comRest : List Char × List Char :=
          match r4 with
          | ',' :: rest => ([','], rest)
          | _ => ([], r4)
        let ws2 := comRest.2.takeWhile pySpace
        let r6 := comRest.2.dropWhile pySpace
        if ws2 = [] then none
        else
          let year := r6.take 4
          if year.length = 4 && year.all isDigit09 then
            some (mon ++ letters ++ ws1 ++ digs ++ comRest.1 ++ ws2 ++ year)
          else none

/-- Leftmost match of the date pattern, as found by `re.search`. -/
def findDate : List Char → Option (List Char)
  | [] => none
  | c :: rest =>
    match dateAt (c :: rest) with
    | some g => some g
    | none => findDate rest

/-- Match of the time pattern `(\d{1,2}:\d{2}\s*[AP]M)` (case-sensitive) at
the head of `s`: greedy `\d{1,2}` first tries two digits before the colon,
then one. -/
def timeAt (s : List Char) : Option (List Char) :=
  match s with
  | [] => none
  | d1 :: rest =>
    if isDigit09 d1 then
      let two : Option (List Char × List Char) :=
        match rest with
        | d2 :: ':' :: r3 => if isDigit09 d2 then some ([d1, d2, ':'], r3) else none
        | _ => none
      let pre : Option (List Char × List Char) :=
        match two with
        | some x => some x
        | none =>
          match rest with
          | ':' :: r3 => some (([d1, ':'] : List Char), r3)
          | _ => none
      match pre with
      | none => none
      | some (p, r3) =>
        match r3 with
        | m1 :: m2 :: r4 =>
          if isDigit09 m1 && isDigit09 m2 then
            let ws := r4.takeWhile pySpace
            match r4.dropWhile pySpace with
            | a :: 'M' :: _ =>
              if a = 'A' || a = 'P' then some (p ++ [m1, m2] ++ ws ++ [a, 'M'])
              else none
            | _ => none
          else none
        | _ => none
    else none

/-- Leftmost match of the time pattern, as found by `re.search`. -/
def findTime : List Char → Option (List Char)
  | [] => none
  | c :: rest =>
    match timeAt (c :: rest) with
    | some g => some g
    | none => findTime rest

/-- An `h2` element of a parsed detail page: its `class` attribute values
and its `get_text(strip=True)` rendering. -/
structure Heading where
  classes : List String := []
  textStripped : String := ""
deriving DecidableEq, Repr

/-- A parsed detail page: its `h2` elements in document order and the
flattened `soup.get_text()` of the whole document. -/
structure Page where
  h2s : List Heading := []
  text : String := ""
deriving DecidableEq, Repr

/-- The event dictionary built by `_fetch_event_details`.  `title` and
`location` are always strings in the source (defaults are substituted);
`date`, `time` and `description` may be Python `None`. -/
structure EventData where
  title : String
  time : Option String
  location : String
  date : Option String
  description : Option String
  source_url : String
deriving DecidableEq, Repr

/-- A persisted `external_events` row: every column is nullable at the
database level, `none` standing for SQL NULL (Python `None`). -/
structure EventRow where
  title : Option String
  location : Option String
  date : Option String
  time : Option String
  description : Option String
  source_url : Option String
deriving DecidableEq, Repr

/-- How `save_events_to_db` binds an event dictionary into a row: strings
bind to TEXT, `None` binds to NULL. -/
def eventRow (e : EventData) : EventRow :=
  ⟨some e.title, some e.location, e.date, e.time, e.description, some e.source_url⟩

/-- Does a heading match `soup.find('h2', class_=re.compile(r'event|title',
re.IGNORECASE))`?  BeautifulSoup applies the regex to each class value;
since neither alternative contains a space, this agrees with searching the
space-joined attribute. -/
def h2ClassMatches (h : Heading) : Bool :=
  h.classes.any (fun c => ciContainsS "EVENT" c || ciContainsS "TITLE" c)

/-- Embedding of the title extraction: first `h2` with a matching class,
else the first `h2`, else the default `'Campus Event'`; element text is
whitespace-collapsed and stripped. -/
def extractTitle (p : Page) : String :=
  match p.h2s.find? h2ClassMatches with
  | some h => wsCleanS h.textStripped
  | none =>
    match p.h2s with
    | h :: _ => wsCleanS h.textStripped
    | [] => "Campus Event"

/-- The event record built from a successfully fetched detail page. -/
def extractEvent (p : Page) (url : String) : EventData :=
  { title := extractTitle p
    time := (findTime p.text.data).map (fun g => (⟨stripL g⟩ : String))
    location := extractLocation p.text.data
    date := (findDate p.text.data).map (fun g => (⟨stripL g⟩ : String))
    description := (extractDescription p.text.data).map (fun l => (⟨l⟩ : String))
    source_url := url }

/-- Embedding of `_fetch_event_details`, parameterised by the network
oracle `fetch`: `none` stands for any exception (timeout, non-2xx status
via `raise_for_status`, parse failure), which the `except` clause turns
into the `None` sentinel. -/
def fetchEventDetails (fetch : String → Option Page) (url : String) :
    Option EventData :=
  match fetch url with
  | none => none
  | some p => some (extractEvent p url)

/-- Model of Python `s.startswith('/')`. -/
def startsSlash (s : String) : Bool :=
  match s.data with
  | '/' :: _ => true
  | _ => false

/-- Embedding of the URL resolution inside `scrape_events`:
`self.base_url + event_url if event_url.startswith('/') else event_url`. -/
def resolveUrl (base href : String) : String :=
  if startsSlash href then base ++ href else href

/-- Valid non-initial characters of a URL scheme, per `urllib.parse`. -/
def isSchemeChar (c : Char) : Bool :=
  isAlphaAscii c || isDigit09 c || c = '+' || c = '-' || c = '.'

/-- Index of the first `':'`. -/
def findColon : List Char → Option Nat
  | [] => none
  | c :: rest => if c = ':' then some 0 else (findColon rest).map (· + 1)

/-- Model of the `__init__` computation
`f"{urlparse(u).scheme}://{urlparse(u).netloc}"`: the scheme is the
lowercased text before the first `':'` when it is a well-formed scheme
name, and the netloc follows a `'//'` up to the next `'/'`, `'?'` or
`'#'`. -/
def baseOf (u : String) : String :=
  let l := u.data
  let schemeRest : List Char × List Char :=
    match findColon l with
    | some i =>
      let sch := l.take i
      match sch with
      | c :: _ =>
        if isAlphaAscii c && sch.all isSchemeChar then
          (sch.map Char.toLower, l.drop (i + 1))
        else ([], l)
      | [] => ([], l)
    | none => ([], l)
  let netloc : List Char :=
    match schemeRest.2 with
    | '/' :: '/' :: r => r.takeWhile (fun c => c ≠ '/' && c ≠ '?' && c ≠ '#')
    | _ => []
  (⟨schemeRest.1⟩ : String) ++ "://" ++ (⟨netloc⟩ : String)

/-- The anchors selected by
`soup.find_all('a', href=re.compile(r'/event/'))`: those whose `href`
contains `/event/`, in document order. -/
def eventLinks (anchors : List String) : List String :=
  anchors.filter (fun h => containsSubS "/event/" h)

/-- The `seen_events` bookkeeping of the scrape loop, recording which hrefs
get processed: a raw (unresolved) href is processed when it is truthy and
not yet in the seen set. -/
def dedupLoop : List String → List String → List String
  | _, [] => []
  | seen, u :: rest =>
    if u ≠ "" ∧ u ∉ seen then u :: dedupLoop (u :: seen) rest
    else dedupLoop seen rest

/-- The scrape loop of `scrape_events`: for each unseen truthy href, resolve
it, fetch the detail page, and append the record on success. -/
def scrapeLoop (base : String) (fetch : String → Option Page) :
    List String → List String → List EventData
  | _, [] => []
  | seen, u :: rest =>
    if u ≠ "" ∧ u ∉ seen then
      match fetchEventDetails fetch (resolveUrl base u) with
      | some e => e :: scrapeLoop base fetch (u :: seen) rest
      | none => scrapeLoop base fetch (u :: seen) rest
    else scrapeLoop base fetch seen rest

/-- Embedding of `CampusEventScraper.scrape_events`: a failed calendar fetch
(`calendar = none`, covering the `except` clause) yields the empty list;
otherwise the first ten matching anchors are processed through the dedup
loop. -/
def scrape_events (base : String) (calendar : Option (List String))
    (fetch : String → Option Page) : List EventData :=
  match calendar with
  | none => []
  | some anchors => scrapeLoop base fetch [] ((eventLinks anchors).take 10)

/-- The href sequence actually processed by one run of `scrape_events`. -/
def selectLinks (anchors : List String) : List String :=
  dedupLoop [] ((eventLinks anchors).take 10)

/-- Modelled from the spec's words: stable first-occurrence deduplication of
a URL sequence (each unique URL kept once, first occurrence wins). -/
def dedupFirstAux : List String → List String → List String
  | _, [] => []
  | seen, u :: rest =>
    if u ∈ seen then dedupFirstAux seen rest
    else u :: dedupFirstAux (u :: seen) rest

/-- Stable first-occurrence deduplication, the spec's reference ordering. -/
def dedupFirst (l : List String) : List String := dedupFirstAux [] l

/-! ## Concrete inputs used by witnesses and counterexamples -/

/-- Twelve matching anchors whose first two share one href: eleven unique
hrefs in total, but only nine unique among the first ten anchors. -/
def c1ex : List String :=
  ["/event/a", "/event/a", "/event/b", "/event/c", "/event/d", "/event/e",
   "/event/f", "/event/g", "/event/h", "/event/i", "/event/j", "/event/k"]

/-- Eleven pairwise distinct matching anchors. -/
def c1wit : List String :=
  ["/event/1", "/event/2", "/event/3", "/event/4", "/event/5", "/event/6",
   "/event/7", "/event/8", "/event/9", "/event/10", "/event/11"]

/-- A payload whose `current` object lacks the `wind_dir` key. -/
def c2exAbsent : RawPayload := { current := some {} }

/-- A payload with a present, padded, lowercase wind direction. -/
def c2w : RawPayload := { current := some { wind_dir := some "  nw " } }

/-- The cleaned record of `c2w`. -/
def c2clean : CleanedData := (clean_data c2w).get (by rfl)

/-- A parsed body carrying the provider's `error` key. -/
def c3errPayload : RawPayload := { location := some {}, error := true }

/-- A storage oracle that always succeeds. -/
def c3save : CleanedData → Bool := fun _ => true

/-- A well-formed payload without an `error` key. -/
def c3okPayload : RawPayload :=
  { location := some { name := some "New  York" }, current := some {} }

/-- The cleaned record of `c3okPayload`. -/
def c3okClean : CleanedData := (clean_data c3okPayload).get (by rfl)

def c4base : String := "https://x.edu"

def c4anchors : List String := ["/event/good", "/event/bad"]

def c4page : Page := { h2s := [], text := "fine" }

/-- A network oracle that fails on one detail URL and succeeds elsewhere. -/
def c4fetch : String → Option Page :=
  fun u => if u = "https://x.edu/event/bad" then none else some c4page

/-- A detail page with no headings and no extractable fields. -/
def c5page : Page := { h2s := [], text := "nothing here" }

def c5fetch : String → Option Page := fun _ => some c5page

/-- A completely empty payload. -/
def c5w : RawPayload := {}

/-- The cleaned record of `c5w`. -/
def c5clean : CleanedData := (clean_data c5w).get (by rfl)

/-- The spec's worked description example. -/
def c6exText : String :=
  "... DESCRIPTION Free pizza and games. QUESTIONS contact x@y.edu"

/-- A text containing the literal `DESCRIPTION` marker whose tail holds a
lowercase `upcoming`: the source's case-insensitive terminator match stops
there, the claim's literal terminators do not. -/
def c6cexText : String := "DESCRIPTION Food upcoming later"

/-- A payload with a two-element description list needing collapsing. -/
def c7w : RawPayload :=
  { current := some
      { weather_descriptions := some (.strs ["Partly  cloudy", "Windy"]) } }

/-- The cleaned record of `c7w`. -/
def c7clean : CleanedData := (clean_data c7w).get (by rfl)

def c8ex : List String := ["/event/x", "/about", "/event/y", "/event/x"]

def c10base : String := "https://events.bmc.edu"

def c10page : Page := { h2s := [], text := "x" }

/-- A relative href and an absolute href that resolve to the same URL. -/
def c10anchors : List String :=
  ["/event/42", "https://events.bmc.edu/event/42"]

def c10fetch : String → Option Page := fun _ => some c10page

/-! ## Supporting lemmas -/

theorem length_dropWhile_le (p : Char → Bool) (l : List Char) :
    (l.dropWhile p).length ≤ l.length := by
  induction l with
  | nil => simp [List.dropWhile]
  | cons c cs ih =>
    by_cases h : p c
    · rw [List.dropWhile_cons, if_pos h]
      exact Nat.le_trans ih (by simp)
    · rw [List.dropWhile_cons, if_neg h]

theorem dropWhile_head_not (p : Char → Bool) (l : List Char) {c : Char} {t : List Char}
    (h : l.dropWhile p = c :: t) : p c = false := by
  induction l with
  | nil => simp [List.dropWhile] at h
  | cons a as ih =>
    rw [List.dropWhile_cons] at h
    by_cases hp : p a
    · rw [if_pos hp] at h; exact ih h
    · rw [if_neg hp] at h
      cases h
      simpa using hp

theorem dropWhile_eq_self_of_head (p : Char → Bool) (l : List Char)
    (h : ∀ c t, l = c :: t → p c = false) : l.dropWhile p = l := by
  cases l with
  | nil => rfl
  | cons c t => rw [List.dropWhile_cons, if_neg (by simp [h c t rfl])]

theorem collapseAux_cons_ws_true (c : Char) (cs : List Char) (hc : pySpace c = true) :
    collapseAux true (c :: cs) = collapseAux true cs := by
  simp [collapseAux, hc]

theorem collapseAux_cons_ws_false (c : Char) (cs : List Char) (hc : pySpace c = true) :
    collapseAux false (c :: cs) = ' ' :: collapseAux true cs := by
  simp [collapseAux, hc]

theorem collapseAux_cons_not_ws (b : Bool) (c : Char) (cs : List Char)
    (hc : pySpace c = false) :
    collapseAux b (c :: cs) = c :: collapseAux false cs := by
  cases b <;> simp [collapseAux, hc]

theorem collapseAux_true_ws (w x : List Char) (hw : ∀ c ∈ w, pySpace c = true) :
    collapseAux true (w ++ x) = collapseAux true x := by
  induction w with
  | nil => rfl
  | cons c cs ih =>
    rw [List.cons_append, collapseAux_cons_ws_true c _ (hw c (by simp))]
    exact ih (fun d hd => hw d (by simp [hd]))

theorem collapseAux_flag (x : List Char) (hx : ∀ c t, x = c :: t → pySpace c = false) :
    collapseAux true x = collapseAux false x := by
  cases x with
  | nil => rfl
  | cons c t =>
    rw [collapseAux_cons_not_ws true c t (hx c t rfl),
      collapseAux_cons_not_ws false c t (hx c t rfl)]

theorem stripL_cons_space (y : List Char) : stripL (' ' :: y) = stripL y := by
  rw [stripL, stripL, List.dropWhile_cons, if_pos (by decide)]

theorem stripBack_append_space (z : List Char) : stripBack (z ++ [' ']) = stripBack z := by
  rw [stripBack, stripBack, List.reverse_append]
  show ((' ' :: z.reverse).dropWhile pySpace).reverse = _
  rw [List.dropWhile_cons, if_pos (by decide)]

theorem stripL_append_space (z : List Char) : stripL (z ++ [' ']) = stripL z := by
  rw [stripL, stripL, List.dropWhile_append]
  by_cases h : (z.dropWhile pySpace).isEmpty
  · rw [if_pos h]
    rw [List.isEmpty_iff] at h
    rw [h]
    rfl
  · rw [if_neg h]
    exact stripBack_append_space _

theorem collapseAux_ws_all (w : List Char) (hw : ∀ c ∈ w, pySpace c = true) :
    collapseAux true w = [] ∧
      (collapseAux false w = [] ∨ collapseAux false w = [' ']) := by
  constructor
  · have h := collapseAux_true_ws w [] hw
    simpa using h
  · cases w with
    | nil => left; rfl
    | cons c cs =>
      right
      rw [collapseAux_cons_ws_false c cs (hw c (by simp))]
      have h := collapseAux_true_ws cs [] (fun d hd => hw d (by simp [hd]))
      simp at h
      rw [h]
      rfl

theorem collapseAux_append_ws (y : List Char) :
    ∀ (b : Bool) (w : List Char), (∀ c ∈ w, pySpace c = true) →
      collapseAux b (y ++ w) = collapseAux b y ∨
        collapseAux b (y ++ w) = collapseAux b y ++ [' '] := by
  induction y with
  | nil =>
    intro b w hw
    obtain ⟨h1, h2⟩ := collapseAux_ws_all w hw
    cases b with
    | true => left; simpa using h1
    | false => simpa using h2
  | cons c cs ih =>
    intro b w hw
    rw [List.cons_append]
    by_cases hc : pySpace c = true
    · cases b with
      | true =>
        rw [collapseAux_cons_ws_true c _ hc, collapseAux_cons_ws_true c cs hc]
        exact ih true w hw
      | false =>
        rw [collapseAux_cons_ws_false c _ hc, collapseAux_cons_ws_false c cs hc]
        rcases ih true w hw with h | h
        · left; rw [h]
        · right; rw [h, List.cons_append]
    · have hc' : pySpace c = false := by simpa using hc
      rw [collapseAux_cons_not_ws b c _ hc', collapseAux_cons_not_ws b c cs hc']
      rcases ih false w hw with h | h
      · left; rw [h]
      · right; rw [h, List.cons_append]

theorem stripL_collapse_append_ws (y w : List Char) (hw : ∀ c ∈ w, pySpace c = true) :
    stripL (collapseRuns (y ++ w)) = stripL (collapseRuns y) := by
  rcases collapseAux_append_ws y false w hw with h | h
  · rw [collapseRuns, h]; rfl
  · rw [collapseRuns, h]
    exact stripL_append_space _

theorem stripL_collapse_ws_cons (w x : List Char) (hw : ∀ c ∈ w, pySpace c = true)
    (hx : ∀ c t, x = c :: t → pySpace c = false) :
    stripL (collapseRuns (w ++ x)) = stripL (collapseRuns x) := by
  cases w with
  | nil => rfl
  | cons c cs =>
    have hc : pySpace c = true := hw c (by simp)
    rw [List.cons_append, collapseRuns, collapseAux_cons_ws_false c _ hc]
    rw [collapseAux_true_ws cs x (fun d hd => hw d (by simp [hd])),
      collapseAux_flag x hx]
    exact stripL_cons_space _

theorem stripL_collapse_stripBack (x : List Char) :
    stripL (collapseRuns (stripBack x)) = stripL (collapseRuns x) := by
  have hdecomp : stripBack x ++ (x.reverse.takeWhile pySpace).reverse = x := by
    calc stripBack x ++ (x.reverse.takeWhile pySpace).reverse
        = (x.reverse.dropWhile pySpace).reverse ++ (x.reverse.takeWhile pySpace).reverse := rfl
      _ = (x.reverse.takeWhile pySpace ++ x.reverse.dropWhile pySpace).reverse := by
            rw [List.reverse_append]
      _ = x.reverse.reverse := by rw [List.takeWhile_append_dropWhile]
      _ = x := List.reverse_reverse x
  have hws : ∀ c ∈ (x.reverse.takeWhile pySpace).reverse, pySpace c = true := by
    intro c hc
    exact List.mem_takeWhile_imp (List.mem_reverse.mp hc)
  have h := stripL_collapse_append_ws (stripBack x)
    ((x.reverse.takeWhile pySpace).reverse) hws
  rw [hdecomp] at h
  exact h.symm

theorem termHere_ws (c : Char) (l : List Char) (hc : pySpace c = true) :
    termHere (c :: l) = false := by
  have hcases := hc
  simp only [pySpace, Bool.or_eq_true, decide_eq_true_eq] at hcases
  rcases hcases with ((((rfl | rfl) | rfl) | rfl) | rfl) | rfl <;> rfl

theorem findTermLen_ws_append (w r : List Char) (hw : ∀ c ∈ w, pySpace c = true) :
    findTermLen (w ++ r) = w.length + findTermLen r := by
  induction w with
  | nil => simp
  | cons c cs ih =>
    have hc := hw c (by simp)
    rw [List.cons_append, findTermLen, termHere_ws c _ hc]
    simp only [Bool.false_eq_true, ↓reduceIte]
    rw [ih (fun d hd => hw d (by simp [hd]))]
    simp [List.length_cons]
    omega

theorem take_head_not_ws (r : List Char) (k : Nat)
    (hr : ∀ c t, r = c :: t → pySpace c = false) :
    ∀ c t, r.take k = c :: t → pySpace c = false := by
  intro c t h
  cases r with
  | nil => simp at h
  | cons a as =>
    cases k with
    | zero => simp at h
    | succ m =>
      rw [List.take_succ_cons] at h
      injection h with h1 h2
      rw [← h1]
      exact hr a as rfl

theorem take_findTermLen_split (l : List Char) :
    l.take (findTermLen l) =
      l.takeWhile pySpace ++
        (l.dropWhile pySpace).take (findTermLen (l.dropWhile pySpace)) := by
  conv_lhs => rw [← List.takeWhile_append_dropWhile pySpace l]
  rw [findTermLen_ws_append _ _ (fun c hc => List.mem_takeWhile_imp hc)]
  exact List.take_append _

theorem take500_ite (d : List Char) :
    (if 500 < d.length then d.take 500 else d) = d.take 500 := by
  by_cases h : 500 < d.length
  · rw [if_pos h]
  · rw [if_neg h]
    exact (List.take_of_length_le (by omega)).symm

/-- The central description lemma: the code's pipeline (strip, collapse with
strip, strip tags, truncate-if-long) agrees with the amended claim's
pipeline (collapse with trim, strip tags, truncate) on every input, once
the capture is taken from after the whitespace run (code) versus from right
after the marker (amended claim). -/
theorem extractDescription_eq_amended (text : List Char) :
    extractDescription text = descriptionAmended text := by
  rw [extractDescription, descriptionAmended]
  cases hfd : findDescPos text with
  | none => rfl
  | some i =>
    dsimp only
    generalize text.drop (i + 11) = l
    have hws : ∀ c ∈ l.takeWhile pySpace, pySpace c = true :=
      fun c hc => List.mem_takeWhile_imp hc
    have hrest : ∀ c t, l.dropWhile pySpace = c :: t → pySpace c = false :=
      fun c t h => dropWhile_head_not pySpace _ h
    have hcapHead := take_head_not_ws (l.dropWhile pySpace)
      (findTermLen (l.dropWhile pySpace)) hrest
    rw [take_findTermLen_split l, stripL_collapse_ws_cons _ _ hws hcapHead]
    have hstrip : stripL ((l.dropWhile pySpace).take
        (findTermLen (l.dropWhile pySpace))) =
        stripBack ((l.dropWhile pySpace).take
          (findTermLen (l.dropWhile pySpace))) := by
      rw [stripL, dropWhile_eq_self_of_head _ _ hcapHead]
    rw [hstrip, stripL_collapse_stripBack, take500_ite]

theorem eventLinks_mem_ne (a : List String) (u : String) (hu : u ∈ eventLinks a) :
    u ≠ "" := by
  intro h
  subst h
  have h2 := (List.mem_filter.mp hu).2
  exact absurd h2 (by decide)

theorem dedupLoop_eq_dedupFirstAux :
    ∀ (l seen : List String), (∀ u ∈ l, u ≠ "") →
      dedupLoop seen l = dedupFirstAux seen l := by
  intro l
  induction l with
  | nil => intro seen _; rfl
  | cons u rest ih =>
    intro seen h
    have hu : u ≠ "" := h u (by simp)
    by_cases hm : u ∈ seen
    · rw [dedupLoop, dedupFirstAux, if_neg (by simp [hm]), if_pos hm]
      exact ih seen (fun v hv => h v (by simp [hv]))
    · rw [dedupLoop, dedupFirstAux, if_pos ⟨hu, hm⟩, if_neg hm]
      rw [ih (u :: seen) (fun v hv => h v (by simp [hv]))]

theorem dedupFirstAux_length_le :
    ∀ (l seen : List String), (dedupFirstAux seen l).length ≤ l.length := by
  intro l
  induction l with
  | nil => intro seen; simp [dedupFirstAux]
  | cons u rest ih =>
    intro seen
    rw [dedupFirstAux]
    by_cases hm : u ∈ seen
    · rw [if_pos hm]
      exact Nat.le_trans (ih seen) (by simp)
    · rw [if_neg hm]
      simpa using ih (u :: seen)

theorem dedupFirstAux_take :
    ∀ (l : List String) (n : Nat) (seen : List String),
      (l.take n).Nodup → (∀ u ∈ l.take n, u ∉ seen) →
      (dedupFirstAux seen l).take n = l.take n := by
  intro l
  induction l with
  | nil => intro n seen _ _; simp [dedupFirstAux]
  | cons u rest ih =>
    intro n seen hnd hs
    cases n with
    | zero => simp
    | succ m =>
      rw [List.take_succ_cons] at hnd hs ⊢
      have hu : u ∉ seen := hs u (by simp)
      rw [dedupFirstAux, if_neg hu, List.take_succ_cons]
      congr 1
      apply ih m (u :: seen) (List.Nodup.of_cons hnd)
      intro v hv hmem
      rcases List.mem_cons.mp hmem with h1 | h1
      · subst h1
        exact (List.nodup_cons.mp hnd).1 hv
      · exact hs v (by simp [hv]) h1

theorem dedupFirstAux_of_nodup (l seen : List String) (hnd : l.Nodup)
    (hs : ∀ u ∈ l, u ∉ seen) : dedupFirstAux seen l = l := by
  have h1 := dedupFirstAux_take l l.length seen (by simpa using hnd)
    (by simpa using hs)
  rw [List.take_length] at h1
  rw [List.take_of_length_le (dedupFirstAux_length_le l seen)] at h1
  exact h1

theorem dedupLoop_not_mem_seen :
    ∀ (l seen : List String) (u : String), u ∈ dedupLoop seen l → u ∉ seen := by
  intro l
  induction l with
  | nil => intro seen u h; simp [dedupLoop] at h
  | cons v rest ih =>
    intro seen u h
    rw [dedupLoop] at h
    by_cases hc : v ≠ "" ∧ v ∉ seen
    · rw [if_pos hc] at h
      rcases List.mem_cons.mp h with h1 | h1
      · subst h1; exact hc.2
      · intro hmem
        exact ih (v :: seen) u h1 (by simp [hmem])
    · rw [if_neg hc] at h
      exact ih seen u h

theorem dedupLoop_nodup : ∀ (l seen : List String), (dedupLoop seen l).Nodup := by
  intro l
  induction l with
  | nil => intro seen; simp [dedupLoop]
  | cons v rest ih =>
    intro seen
    rw [dedupLoop]
    by_cases hc : v ≠ "" ∧ v ∉ seen
    · rw [if_pos hc]
      refine List.nodup_cons.mpr ⟨?_, ih (v :: seen)⟩
      intro hmem
      exact dedupLoop_not_mem_seen rest (v :: seen) v hmem (by simp)
    · rw [if_neg hc]
      exact ih seen

theorem dedupLoop_length_le :
    ∀ (l seen : List String), (dedupLoop seen l).length ≤ l.length := by
  intro l
  induction l with
  | nil => intro seen; simp [dedupLoop]
  | cons v rest ih =>
    intro seen
    rw [dedupLoop]
    by_cases hc : v ≠ "" ∧ v ∉ seen
    · rw [if_pos hc]
      simpa using ih (v :: seen)
    · rw [if_neg hc]
      exact Nat.le_trans (ih seen) (by simp)

theorem scrapeLoop_eq_filterMap (base : String) (fetch : String → Option Page) :
    ∀ (l seen : List String),
      scrapeLoop base fetch seen l =
        (dedupLoop seen l).filterMap
          (fun u => fetchEventDetails fetch (resolveUrl base u)) := by
  intro l
  induction l with
  | nil => intro seen; rfl
  | cons u rest ih =>
    intro seen
    rw [scrapeLoop, dedupLoop]
    by_cases hc : u ≠ "" ∧ u ∉ seen
    · rw [if_pos hc, if_pos hc, List.filterMap_cons]
      cases hfe : fetchEventDetails fetch (resolveUrl base u) with
      | none => exact ih (u :: seen)
      | some e => rw [ih (u :: seen)]
    · rw [if_neg hc, if_neg hc]
      exact ih seen

/-! ## Claim theorems -/

/-- Claim C1, counterexample.  The claim says link selection processes the
first 10 unique `/event/` hrefs of the document.  On `c1ex` (eleven unique
hrefs, with a duplicate among the first ten anchors) the loop processes only
nine hrefs, because the source slices `event_links[:10]` before
deduplicating, so the processed sequence differs from the first ten unique
hrefs. -/
theorem C1_counterexample :
    (selectLinks c1ex).length = 9 ∧
      ((dedupFirst (eventLinks c1ex)).take 10).length = 10 ∧
      selectLinks c1ex ≠ (dedupFirst (eventLinks c1ex)).take 10 := by
  refine ⟨by decide, by decide, by decide⟩

/-- Claim C1, amended: link selection processes, in first-occurrence order,
the unique hrefs among the first 10 matching anchors (first occurrence wins,
stable order); when the first 10 matching anchors are pairwise distinct this
coincides with the first 10 unique hrefs of the document. -/
theorem C1_amended_link_selection :
    (∀ anchors, selectLinks anchors = dedupFirst ((eventLinks anchors).take 10)) ∧
      (∀ anchors, ((eventLinks anchors).take 10).Nodup →
        selectLinks anchors = (dedupFirst (eventLinks anchors)).take 10) := by
  constructor
  · intro anchors
    rw [selectLinks, dedupFirst]
    exact dedupLoop_eq_dedupFirstAux _ []
      (fun u hu => eventLinks_mem_ne anchors u (List.mem_of_mem_take hu))
  · intro anchors hnd
    rw [selectLinks, dedupFirst,
      dedupLoop_eq_dedupFirstAux _ []
        (fun u hu => eventLinks_mem_ne anchors u (List.mem_of_mem_take hu)),
      dedupFirstAux_of_nodup _ [] hnd (by simp),
      dedupFirstAux_take (eventLinks anchors) 10 [] hnd (by simp)]

/-- Claim C1, witness for the amended theorem, at eleven pairwise distinct
anchors. -/
theorem C1_witness :
    selectLinks c1wit = dedupFirst ((eventLinks c1wit).take 10) ∧
      ((eventLinks c1wit).take 10).Nodup ∧
      selectLinks c1wit = (dedupFirst (eventLinks c1wit)).take 10 :=
  ⟨C1_amended_link_selection.1 c1wit, by decide,
   C1_amended_link_selection.2 c1wit (by decide)⟩

/-- Claim C2, counterexample.  The claim says an absent wind direction
yields the explicit no-value marker, distinct from the empty string; the
source's `current.get('wind_dir', '')` yields the empty string instead. -/
theorem C2_counterexample :
    (clean_data c2exAbsent).map CleanedData.wind_dir = some (Cell.str "") ∧
      Cell.str "" ≠ Cell.null := by
  refine ⟨by decide, by decide⟩

/-- Claim C2, amended: the cleaned `wind_dir` is the input wind direction
uppercased and trimmed when it is present and nonempty, and the empty
string (not the null marker) when it is absent or empty. -/
theorem C2_amended_wind_dir :
    ∀ (w : RawPayload) (c : CleanedData), clean_data w = some c →
      ((w.current.getD {}).wind_dir.getD "" = "" → c.wind_dir = Cell.str "") ∧
        (∀ s, (w.current.getD {}).wind_dir = some s → s ≠ "" →
          c.wind_dir = Cell.str (stripS (upperS s))) := by
  intro w c h
  rw [clean_data] at h
  injection h with h
  subst h
  constructor
  · intro h0
    simp [h0]
  · intro s hs hne
    simp [hs, hne]

/-- Claim C2, witness for the amended theorem: a padded lowercase `'  nw '`
cleans to `'NW'`. -/
theorem C2_witness : c2clean.wind_dir = Cell.str "NW" := by
  rw [(C2_amended_wind_dir c2w c2clean (Option.some_get _).symm).2 "  nw "
    (by decide) (by decide)]
  decide

/-- Claim C3: a parsed body with the provider's `error` key makes
`fetch_weather` return the `None` sentinel and the orchestration fail
without invoking cleaning or storage (the result is `false` for every
storage oracle); more generally the orchestration is fetch, then clean,
then persist, short-circuiting with failure at the first failing stage. -/
theorem C3_error_short_circuit :
    (∀ p, p.error = true → fetch_weather (.ok p) = none) ∧
      (∀ p save, p.error = true → get_and_store_weather (.ok p) save = false) ∧
      (∀ save, get_and_store_weather .transportError save = false) ∧
      (∀ o save, fetch_weather o = none → get_and_store_weather o save = false) ∧
      (∀ o save w c, fetch_weather o = some w → pyTruthy w = true →
        clean_data w = some c → get_and_store_weather o save = save c) := by
  refine ⟨?_, ?_, ?_, ?_, ?_⟩
  · intro p hp
    simp [fetch_weather, hp]
  · intro p save hp
    simp [get_and_store_weather, fetch_weather, hp]
  · intro save
    rfl
  · intro o save h
    simp [get_and_store_weather, h]
  · intro o save w c h1 h2 h3
    simp [get_and_store_weather, h1, h2, h3]

/-- Claim C3, witness: a concrete error body fails both stages, a transport
error fails the orchestration, and a concrete good body reaches storage. -/
theorem C3_witness :
    fetch_weather (.ok c3errPayload) = none ∧
      get_and_store_weather (.ok c3errPayload) c3save = false ∧
      get_and_store_weather .transportError c3save = false ∧
      get_and_store_weather (.ok c3okPayload) c3save = c3save c3okClean :=
  ⟨C3_error_short_circuit.1 c3errPayload rfl,
   C3_error_short_circuit.2.1 c3errPayload c3save rfl,
   C3_error_short_circuit.2.2.1 c3save,
   C3_error_short_circuit.2.2.2.2 (.ok c3okPayload) c3save c3okPayload c3okClean
     (by decide) (by decide) (Option.some_get _).symm⟩

/-- Claim C4: a failed detail fetch makes `_fetch_event_details` return the
`None` sentinel rather than raising; the scrape equals the filter-map of the
per-link results over the selected links, so one failing link is skipped
while the remaining links are still processed and their successes
returned. -/
theorem C4_partial_failure :
    (∀ (fetch : String → Option Page) url, fetch url = none →
        fetchEventDetails fetch url = none) ∧
      (∀ base anchors fetch,
        scrape_events base (some anchors) fetch =
          (selectLinks anchors).filterMap
            (fun u => fetchEventDetails fetch (resolveUrl base u))) ∧
      (∀ base fetch seen u rest, u ≠ "" → u ∉ seen →
        fetchEventDetails fetch (resolveUrl base u) = none →
        scrapeLoop base fetch seen (u :: rest) =
          scrapeLoop base fetch (u :: seen) rest) := by
  refine ⟨?_, ?_, ?_⟩
  · intro fetch url h
    simp [fetchEventDetails, h]
  · intro base anchors fetch
    rw [scrape_events, selectLinks]
    exact scrapeLoop_eq_filterMap base fetch _ []
  · intro base fetch seen u rest h1 h2 h3
    rw [scrapeLoop, if_pos ⟨h1, h2⟩, h3]

/-- Claim C4, witness: with one failing and one succeeding link, the
failing link yields no record, the loop skips it, and the scrape still
returns the one success. -/
theorem C4_witness :
    fetchEventDetails c4fetch "https://x.edu/event/bad" = none ∧
      scrape_events c4base (some c4anchors) c4fetch =
        (selectLinks c4anchors).filterMap
          (fun u => fetchEventDetails c4fetch (resolveUrl c4base u)) ∧
      scrapeLoop c4base c4fetch ["/event/good"] ["/event/bad"] =
        scrapeLoop c4base c4fetch ["/event/bad", "/event/good"] [] ∧
      (scrape_events c4base (some c4anchors) c4fetch).length = 1 :=
  ⟨C4_partial_failure.1 c4fetch "https://x.edu/event/bad" (by decide),
   C4_partial_failure.2.1 c4base c4anchors c4fetch,
   C4_partial_failure.2.2 c4base c4fetch ["/event/good"] "/event/bad" []
     (by decide) (by decide) (by decide),
   by decide⟩

/-- Claim C5: every event record has a non-null title and location (the row
binds them as non-NULL TEXT); when no heading exists the title defaults to
`'Campus Event'`, and when the LOCATION search matches nothing the location
defaults to `'Blue Mountain Christian University'`; and every cleaned
weather record has a non-null (string) `location_name`. -/
theorem C5_nonnull_defaults :
    (∀ (fetch : String → Option Page) url ev,
        fetchEventDetails fetch url = some ev →
        (eventRow ev).title ≠ none ∧ (eventRow ev).location ≠ none) ∧
      (∀ p url, p.h2s = [] → (extractEvent p url).title = "Campus Event") ∧
      (∀ p url, findLocCap p.text.data = none →
        (extractEvent p url).location = "Blue Mountain Christian University") ∧
      (∀ w c, clean_data w = some c →
        c.location_name ≠ Cell.null ∧ ∃ s, c.location_name = Cell.str s) := by
  refine ⟨?_, ?_, ?_, ?_⟩
  · intro fetch url ev h
    rw [fetchEventDetails] at h
    cases hf : fetch url with
    | none => rw [hf] at h; exact absurd h (by simp)
    | some p =>
      rw [hf] at h
      injection h with h
      subst h
      exact ⟨by simp [eventRow], by simp [eventRow]⟩
  · intro p url h
    simp [extractEvent, extractTitle, h]
  · intro p url h
    simp [extractEvent, extractLocation, h]
  · intro w c h
    rw [clean_data] at h
    injection h with h
    subst h
    exact ⟨by simp, _, rfl⟩

/-- Claim C5, witness: a page with no headings and no LOCATION marker gets
both defaults, the row cells are non-NULL, and an empty weather payload
still cleans to a string `location_name`. -/
theorem C5_witness :
    ((eventRow (extractEvent c5page "u")).title ≠ none ∧
        (eventRow (extractEvent c5page "u")).location ≠ none) ∧
      (extractEvent c5page "u").title = "Campus Event" ∧
      (extractEvent c5page "u").location = "Blue Mountain Christian University" ∧
      (c5clean.location_name ≠ Cell.null ∧ ∃ s, c5clean.location_name = Cell.str s) :=
  ⟨C5_nonnull_defaults.1 c5fetch "u" (extractEvent c5page "u") rfl,
   C5_nonnull_defaults.2.1 c5page "u" rfl,
   C5_nonnull_defaults.2.2.1 c5page "u" (by decide),
   C5_nonnull_defaults.2.2.2 c5w c5clean (Option.some_get _).symm⟩

/-- Claim C6, counterexample.  The claim reads the marker and terminators
as the literal strings `DESCRIPTION`, `QUESTIONS`, `Upcoming`,
`Interested`; the source matches them under `re.IGNORECASE`.  On a text
containing the literal marker followed by a lowercase `upcoming`, the code
stops the capture at `upcoming` and extracts `'Food'`, while the claim's
formula runs to end-of-text and yields `'Food upcoming later'`. -/
theorem C6_counterexample :
    findLitDescPos c6cexText.data = some 0 ∧
      extractDescription c6cexText.data = some "Food".data ∧
      descriptionSpec c6cexText.data = some "Food upcoming later".data ∧
      extractDescription c6cexText.data ≠ descriptionSpec c6cexText.data := by
  refine ⟨by decide, by decide, by decide, by decide⟩

/-- Claim C6, amended: the marker and the terminators are matched
case-insensitively (the source compiles the pattern with `re.IGNORECASE`),
and the extraction fires at the first case-insensitive `DESCRIPTION`
occurrence that is followed by at least one whitespace character; with that
reading, for every flattened page text the extracted description is the
text between the marker and the first terminator (or end of text),
whitespace-collapsed, with angle-bracket markup stripped, and truncated to
at most 500 characters — and the spec's worked example still extracts
`'Free pizza and games.'`. -/
theorem C6_description_extraction :
    (∀ text, extractDescription text = descriptionAmended text) ∧
      extractDescription c6exText.data = some "Free pizza and games.".data :=
  ⟨extractDescription_eq_amended, by decide⟩

/-- Claim C7: when the raw `weather_descriptions` is a list of strings, the
cleaned value is the `', '`-join in original order, whitespace-collapsed
and trimmed. -/
theorem C7_descriptions_join :
    ∀ (w : RawPayload) (c : CleanedData) (l : List String),
      clean_data w = some c →
      (w.current.getD {}).weather_descriptions = some (Descs.strs l) →
      c.weather_descriptions = Cell.str (wsCleanS (String.intercalate ", " l)) := by
  intro w c l h hd
  rw [clean_data] at h
  injection h with h
  subst h
  simp [hd]

/-- Claim C7, witness: `['Partly  cloudy', 'Windy']` cleans to
`'Partly cloudy, Windy'`. -/
theorem C7_witness : c7clean.weather_descriptions = Cell.str "Partly cloudy, Windy" := by
  rw [C7_descriptions_join c7w c7clean ["Partly  cloudy", "Windy"]
    (Option.some_get _).symm (by decide)]
  decide

/-- Claim C8: candidate-link extraction is a deterministic function of the
input (equal inputs give equal ordered sequences), its output is
deduplicated, and it never has more than 10 entries regardless of input
size. -/
theorem C8_extraction_bounded :
    (∀ a b : List String, a = b → selectLinks a = selectLinks b) ∧
      (∀ a, (selectLinks a).Nodup ∧ (selectLinks a).length ≤ 10) := by
  constructor
  · intro a b h
    rw [h]
  · intro a
    refine ⟨dedupLoop_nodup _ [], ?_⟩
    calc (dedupLoop [] ((eventLinks a).take 10)).length
        ≤ ((eventLinks a).take 10).length := dedupLoop_length_le _ []
      _ ≤ 10 := List.length_take_le _ _

/-- Claim C8, witness at a concrete anchor list with a duplicate and a
non-matching href. -/
theorem C8_witness :
    selectLinks c8ex = selectLinks c8ex ∧
      (selectLinks c8ex).Nodup ∧ (selectLinks c8ex).length ≤ 10 :=
  ⟨C8_extraction_bounded.1 c8ex c8ex rfl, C8_extraction_bounded.2 c8ex⟩

/-- Claim C9: URL resolution prepends the origin's scheme+host to every
root-relative href and leaves every other href unchanged; in particular
`/event/42` against `https://events.bmc.edu` resolves to
`https://events.bmc.edu/event/42`, and an absolute URL passes through. -/
theorem C9_resolve_url :
    (∀ origin href, startsSlash href = true →
        resolveUrl (baseOf origin) href = baseOf origin ++ href) ∧
      (∀ base href, startsSlash href = false → resolveUrl base href = href) ∧
      resolveUrl (baseOf "https://events.bmc.edu") "/event/42" =
        "https://events.bmc.edu/event/42" ∧
      resolveUrl (baseOf "https://events.bmc.edu") "https://x.org/e/1" =
        "https://x.org/e/1" := by
  refine ⟨?_, ?_, by decide, by decide⟩
  · intro origin href h
    rw [resolveUrl, if_pos h]
  · intro base href h
    rw [resolveUrl, if_neg (by simp [h])]

/-- Claim C9, witness for the two conditional conjuncts. -/
theorem C9_witness :
    resolveUrl (baseOf "https://x.org") "/a" = baseOf "https://x.org" ++ "/a" ∧
      resolveUrl "https://x.org" "b" = "b" :=
  ⟨C9_resolve_url.1 "https://x.org" "/a" (by decide),
   C9_resolve_url.2.1 "https://x.org" "b" (by decide)⟩

/-- Claim C10, counterexample.  The claim says the two records obtained
from a root-relative and an absolute href resolving to the same URL carry
distinct `source_url` values; in fact both records carry the identical
resolved URL, so the mapped `source_url` list has a duplicate. -/
theorem C10_counterexample :
    (scrape_events c10base (some c10anchors) c10fetch).map EventData.source_url =
        ["https://events.bmc.edu/event/42", "https://events.bmc.edu/event/42"] ∧
      ¬ ((scrape_events c10base (some c10anchors) c10fetch).map
          EventData.source_url).Nodup := by
  refine ⟨by decide, by decide⟩

/-- Claim C10, amended: duplicate suppression keys on the raw href before
resolution, so two textually different hrefs are both treated as unseen and
both fetched, yielding two records whose `source_url` values are the
respective resolved URLs — identical (not distinct) when both resolve to
the same absolute URL. -/
theorem C10_amended_raw_href_dedup :
    ∀ (base u1 u2 : String) (fetch : String → Option Page) (p1 p2 : Page),
      u1 ≠ "" → u2 ≠ "" → u1 ≠ u2 →
      containsSubS "/event/" u1 = true → containsSubS "/event/" u2 = true →
      fetch (resolveUrl base u1) = some p1 → fetch (resolveUrl base u2) = some p2 →
      (scrape_events base (some [u1, u2]) fetch).map EventData.source_url =
        [resolveUrl base u1, resolveUrl base u2] := by
  intro base u1 u2 fetch p1 p2 h1 h2 hne hc1 hc2 hf1 hf2
  rw [scrape_events]
  have hlinks : eventLinks [u1, u2] = [u1, u2] := by
    simp [eventLinks, hc1, hc2]
  rw [hlinks]
  have htake : ([u1, u2] : List String).take 10 = [u1, u2] := rfl
  rw [htake]
  rw [scrapeLoop, if_pos ⟨h1, by simp⟩, fetchEventDetails, hf1]
  rw [scrapeLoop, if_pos ⟨h2, by simp; exact fun h => hne h.symm⟩,
    fetchEventDetails, hf2]
  rw [scrapeLoop]
  simp [extractEvent]

/-- Claim C10, witness for the amended theorem, at the concrete pair of
hrefs that resolve to the same absolute URL. -/
theorem C10_witness :
    (scrape_events c10base (some c10anchors) c10fetch).map EventData.source_url =
      [resolveUrl c10base "/event/42",
       resolveUrl c10base "https://events.bmc.edu/event/42"] :=
  C10_amended_raw_href_dedup c10base "/event/42" "https://events.bmc.edu/event/42"
    c10fetch c10page c10page (by decide) (by decide) (by decide) (by decide)
    (by decide) (by decide) (by decide)

end CampusConnect
